import Mathlib

/-!
Shallow embedding of the normalization-and-relay core of `src/app.py`
(a FastAPI + Vosk speech bridge).  Pure string helpers model the Python
string operations the source uses; the per-code token queues
(`QUEUES` / `QLEN`) are modelled as a state record threaded explicitly
through the operations; the two HTTP handlers are modelled as functions
from state (plus the externally produced recognition hypothesis) to a
result together with the successor state.
-/

/-- Python `str` whitespace test as used by `str.strip()` / `str.split()`,
restricted to the ASCII whitespace characters; the exotic Unicode space
code points Python additionally treats as whitespace are left out and
behave like ordinary characters here. -/
def pyIsSpace (c : Char) : Bool :=
  c == ' ' || c == '\t' || c == '\n' || c == '\x0d' || c == '\x0b' || c == '\x0c'

/-- Python `str.lower`, restricted to ASCII letters and the German letters
relevant to this program (the umlauts and the sharp s, whose lowercase
forms are the only non-ASCII characters the normalizer keeps); every
other character is returned unchanged. -/
def pyLower (c : Char) : Char :=
  if c = 'Ä' then 'ä'
  else if c = 'Ö' then 'ö'
  else if c = 'Ü' then 'ü'
  else if c = Char.ofNat 0x1E9E then 'ß'
  else Char.toLower c

/-- Python `str.lower` on a whole string (character map, see `pyLower`). -/
def pyLowerStr (s : String) : String := String.mk (s.data.map pyLower)

/-- Python `str.strip()`: drop leading and trailing whitespace. -/
def pyStrip (s : String) : String :=
  String.mk (((s.data.dropWhile pyIsSpace).reverse.dropWhile pyIsSpace).reverse)

/-- Helper for Python `str.split()` (whitespace split, empties discarded):
walks the character list keeping an accumulator of the current word,
reversed. -/
def splitWSAux : List Char → List Char → List (List Char)
  | [], acc => if acc.isEmpty then [] else [acc.reverse]
  | c :: rest, acc =>
    if pyIsSpace c then
      if acc.isEmpty then splitWSAux rest [] else acc.reverse :: splitWSAux rest []
    else splitWSAux rest (c :: acc)

/-- Python `s.split()` with no argument: split on whitespace runs,
discarding empty pieces. -/
def pySplitWS (s : String) : List String := (splitWSAux s.data []).map String.mk

/-- Python `s.replace("-", "")`: delete every hyphen. -/
def removeHyphens (s : String) : String :=
  String.mk (s.data.filter (fun c => !(c == '-')))

/-- Replace every hyphen by a space (used only by the claim-side variant
of the normalizer that splits on hyphens, as the spec words it). -/
def hyphenToSpace (s : String) : String :=
  String.mk (s.data.map (fun c => if c == '-' then ' ' else c))

/-- The character filter of `normalize_token` (src/app.py line 63): keep a
character if it is a lowercase ASCII letter (`"a" <= ch <= "z"`, here
`Char.isLower`) or one of `" äöüß-"`, otherwise replace it by a space. -/
def charFilter (s : String) : String :=
  String.mk (s.data.map (fun ch =>
    if ch.isLower || ch == ' ' || ch == 'ä' || ch == 'ö' || ch == 'ü'
        || ch == 'ß' || ch == '-' then ch else ' '))

/-- src/app.py line 30. -/
def MAX_QUEUE_LEN_PER_CODE : Nat := 64

/-- src/app.py lines 32 to 36: the built-in default vocabulary. -/
def DEFAULT_VOCAB : Finset String :=
  {"rot","blau","gruen","gelb","orange","lila","rosa","pink","braun","grau",
   "schwarz","weiss","tuerkis","cyan","magenta","beige","silber","gold",
   "hellblau","dunkelblau","hellgruen","dunkelgruen","dunkelrot","oliv","mint","violett"}

/-- src/app.py lines 38 to 45: the alias table, as an association list. -/
def ALIASES : List (String × String) :=
  [("weiß","weiss"),("weiss","weiss"),
   ("grün","gruen"),("gruen","gruen"),
   ("türkis","tuerkis"),("turkis","tuerkis"),
   ("hell-blau","hellblau"),("dunkel-blau","dunkelblau"),
   ("hell-grün","hellgruen"),("dunkel-grün","dunkelgruen"),
   ("violet","violett"),("purple","violett")]

/-- Python `ALIASES.get(w, w)`: look `w` up in the alias table, defaulting
to `w` itself. -/
def aliasGetD (w : String) : String :=
  match ALIASES.find? (fun p => p.1 == w) with
  | some p => p.2
  | none => w

/-- The runtime vocabulary `VOCAB = load_vocab(VOCAB_PATH)` (src/app.py
line 57).  The repository ships no `vocab/colors_de.txt`, so the
`FileNotFoundError` branch of `load_vocab` applies and the module-level
`VOCAB` is the built-in default set. -/
def VOCAB : Finset String := DEFAULT_VOCAB

/-- The first half of the loop of `normalize_token` (src/app.py lines 69
to 72): scan the candidate words left to right, apply the word-level
alias table, return the first alias-mapped word that is in the
vocabulary. -/
def firstVocabWord (V : Finset String) : List String → Option String
  | [] => none
  | w :: rest =>
    let w2 := aliasGetD w
    if w2 ∈ V then some w2 else firstVocabWord V rest

/-- src/app.py lines 59 to 73, `normalize_token`, parameterized by the
vocabulary the module-level code loaded into `VOCAB`. -/
def normalize_token (V : Finset String) (s : String) : Option String :=
  if s = "" then none
  else
    let s1 := pyLowerStr (pyStrip s)
    let s2 := charFilter s1
    let s3 := String.intercalate " " (pySplitWS s2)
    if s3 = "" then none
    else
      let s4 := aliasGetD s3
      firstVocabWord V (pySplitWS (removeHyphens s4))

/-- The variant of the final step of `normalize_token` stated by the
amended claim C3: the candidate words are the space-separated pieces of
the alias-substituted string with its internal hyphens removed (fused),
and the result is the alias image of the first candidate whose alias
image is in the vocabulary. -/
def normalize_amendedC3 (V : Finset String) (s : String) : Option String :=
  if s = "" then none
  else
    let s1 := pyLowerStr (pyStrip s)
    let s2 := charFilter s1
    let s3 := String.intercalate " " (pySplitWS s2)
    if s3 = "" then none
    else
      let s4 := aliasGetD s3
      ((pySplitWS (removeHyphens s4)).find? (fun w => decide (aliasGetD w ∈ V))).map aliasGetD

/-- Modelled from the spec wording of claim C3 (spec section 4.2 step 6):
identical to the source normalizer except that the candidate list is
obtained by splitting the alias-substituted string on spaces AND on
internal hyphens (hyphens act as separators instead of being removed). -/
def normalize_specC3 (V : Finset String) (s : String) : Option String :=
  if s = "" then none
  else
    let s1 := pyLowerStr (pyStrip s)
    let s2 := charFilter s1
    let s3 := String.intercalate " " (pySplitWS s2)
    if s3 = "" then none
    else
      let s4 := aliasGetD s3
      ((pySplitWS (hyphenToSpace s4)).find? (fun w => decide (aliasGetD w ∈ V))).map aliasGetD

/-- The outcome of `open(path).read().splitlines()` in `load_vocab`
(src/app.py lines 49 to 55): the file may be absent (`FileNotFoundError`,
the one exception the source catches), readable with the given list of
lines, or unreadable for another reason (for instance a permission or
decoding error), in which case the exception propagates out of
`load_vocab`. -/
inductive VocabSource where
  | missing : VocabSource
  | content : List String → VocabSource
  | readError : VocabSource

/-- The set comprehension of src/app.py line 52:
`{s.strip().lower() for s in lines if s.strip()}`. -/
def vocabItems (lines : List String) : Finset String :=
  ((lines.filter (fun s => !(pyStrip s == ""))).map (fun s => pyLowerStr (pyStrip s))).toFinset

/-- src/app.py lines 49 to 55, `load_vocab`.  `Except.error ()` models an
uncaught exception escaping the function. -/
def load_vocab : VocabSource → Except Unit (Finset String)
  | VocabSource.missing => Except.ok DEFAULT_VOCAB
  | VocabSource.readError => Except.error ()
  | VocabSource.content lines =>
    let items := vocabItems lines
    Except.ok (if items = ∅ then DEFAULT_VOCAB else items)

/-- The process-wide relay registry of src/app.py lines 125 to 126: the
dictionary `QUEUES` of per-code FIFO queues (a `queue.Queue` is a FIFO
list here) and the dictionary `QLEN` of bookkeeping lengths.  `none`
models an absent dictionary key. -/
structure RelayState where
  queues : String → Option (List String)
  qlen : String → Option Nat

/-- Dictionary update `d[k] = v`. -/
def fupdate {α : Type} (f : String → Option α) (k : String) (v : Option α) :
    String → Option α :=
  fun x => if x = k then v else f x

/-- The state at process start: both dictionaries empty. -/
def initState : RelayState := ⟨fun _ => none, fun _ => none⟩

/-- Python `QLEN.get(code, 0)`. -/
def qlenGet (st : RelayState) (code : String) : Nat := (st.qlen code).getD 0

/-- src/app.py lines 128 to 133, `q_for`: strip the code, create an empty
queue and a zero length entry under the stripped code if absent.  The
source returns the (mutable) queue object; here we return the updated
state together with the stripped key the queue lives under. -/
def q_for (st : RelayState) (code : String) : RelayState × String :=
  let key := pyStrip code
  match st.queues key with
  | some _ => (st, key)
  | none =>
    (⟨fupdate st.queues key (some []), fupdate st.qlen key (some 0)⟩, key)

/-- The eviction branch of `push_token` (src/app.py lines 138 to 142):
`q.get_nowait()` pops the oldest element of the queue stored under `key`
and `QLEN[code] = max(0, QLEN[code] - 1)` decrements the bookkeeping
entry of the unstripped `code` (natural subtraction models the
`max(0, ...)` floor).  If the queue is empty, `get_nowait` raises and the
`except ... pass` handler leaves the state unchanged.  The branch is only
entered under the guard `QLEN.get(code, 0) >= MAX_QUEUE_LEN_PER_CODE`,
so `QLEN[code]` is then present and the direct indexing cannot raise. -/
def evictOne (st : RelayState) (code key : String) : RelayState :=
  match st.queues key with
  | some (_ :: rest) =>
    ⟨fupdate st.queues key (some rest),
     fupdate st.qlen code (some (qlenGet st code - 1))⟩
  | _ => st

/-- The final two lines of `push_token` (src/app.py lines 143 to 144):
`q.put(token)` appends to the queue under `key` and
`QLEN[code] = QLEN.get(code, 0) + 1` increments the bookkeeping entry of
the unstripped `code`. -/
def appendTok (st : RelayState) (code key token : String) : RelayState :=
  ⟨fupdate st.queues key (some ((st.queues key).getD [] ++ [token])),
   fupdate st.qlen code (some (qlenGet st code + 1))⟩

/-- src/app.py lines 135 to 144, `push_token`.  Note the source's key
mismatch: the queue lives under the stripped code (via `q_for`) while
the `QLEN` reads and writes use the code as passed in. -/
def push_token (st : RelayState) (code token : String) : RelayState :=
  let key := pyStrip code
  let st1 := (q_for st code).1
  let st2 :=
    if MAX_QUEUE_LEN_PER_CODE ≤ qlenGet st1 code then evictOne st1 code key else st1
  appendTok st2 code key token

/-- The `while True` loop of `drain_tokens` (src/app.py lines 149 to
154): pop every element of the queue in FIFO order, decrementing the
bookkeeping counter once per popped element with a floor at zero
(`max(0, QLEN.get(code, 0) - 1)`, natural subtraction). -/
def drainLoop : List String → Nat → List String × Nat
  | [], n => ([], n)
  | t :: rest, n =>
    let r := drainLoop rest (n - 1)
    (t :: r.1, r.2)

/-- src/app.py lines 146 to 155, `drain_tokens`: return every queued
token of the stripped code's queue in FIFO order and leave that queue
empty.  `QLEN[code]` (unstripped key, as in the source) is written once
per popped element, hence not written at all when the queue was already
empty. -/
def drain_tokens (st : RelayState) (code : String) : List String × RelayState :=
  let key := pyStrip code
  let st1 := (q_for st code).1
  let q := (st1.queues key).getD []
  let r := drainLoop q (qlenGet st1 code)
  (r.1,
   ⟨fupdate st1.queues key (some []),
    if q = [] then st1.qlen else fupdate st1.qlen code (some r.2)⟩)

/-- A sequence of `push_token` calls with one fixed code, in list order. -/
def pushSeq (st : RelayState) (code : String) (ts : List String) : RelayState :=
  ts.foldl (fun s t => push_token s code t) st

/-- One sequential operation on the relay registry. -/
inductive Op where
  | push : String → String → Op
  | drain : String → Op

/-- The code argument of an operation. -/
def Op.code : Op → String
  | Op.push c _ => c
  | Op.drain c => c

/-- Execute one operation (the drained tokens are discarded; only the
state matters for the bookkeeping invariant). -/
def runOp (st : RelayState) : Op → RelayState
  | Op.push c t => push_token st c t
  | Op.drain c => (drain_tokens st c).2

/-- Execute a list of operations in order. -/
def runOps (st : RelayState) (ops : List Op) : RelayState := ops.foldl runOp st

/-- The bookkeeping agreement: every queue entry has a `QLEN` entry
holding exactly its length, and `QLEN` has no entry where `QUEUES` has
none. -/
def agrees (st : RelayState) : Prop :=
  (∀ k q, st.queues k = some q → st.qlen k = some q.length) ∧
  (∀ k, st.queues k = none → st.qlen k = none)

/-- Whether an `Except` result is a success. -/
def isOkE {α : Type} : Except String α → Bool
  | Except.ok _ => true
  | Except.error _ => false

/-- src/app.py lines 178 to 210, the `/recognize` handler, modelled after
the external collaborators (audio container decoding and the Vosk
recognizer) have produced the hypothesis string `hyp`; a decode or
recognition failure and the short-audio early return correspond to
`hyp = ""`, which normalizes to `none`.  The handler first validates the
code (`if not code or len(code) > 64`) and rejects without touching any
state; otherwise it enqueues the normalized token, if any. -/
def recognize (st : RelayState) (code hyp : String) :
    Except String (Option String) × RelayState :=
  if code = "" ∨ 64 < code.length then (Except.error "invalid code", st)
  else
    match normalize_token VOCAB hyp with
    | some t => (Except.ok (some t), push_token st code t)
    | none => (Except.ok none, st)

/-- src/app.py lines 212 to 216, the `/pull` handler: validate the code
the same way, then drain. -/
def pull (st : RelayState) (code : String) :
    Except String (List String) × RelayState :=
  if code = "" ∨ 64 < code.length then (Except.error "invalid code", st)
  else
    let r := drain_tokens st code
    (Except.ok r.1, r.2)

/-- Modelled from the spec wording of claim C8: a request is rejected
iff the key identifier is missing or empty, or exceeds its channel's
maximum length, 32 characters for the numeric-style secondary channel
(an identifier consisting solely of digits) and 64 characters for the
primary channel. -/
def rejects_specC8 (code : String) : Bool :=
  code == "" ||
    (if code.data.all Char.isDigit then 32 < code.length else 64 < code.length)

theorem fupdate_self {α : Type} (f : String → Option α) (k : String) (v : Option α) :
    fupdate f k v k = v := by
  simp [fupdate]

theorem fupdate_other {α : Type} (f : String → Option α) (k : String) (v : Option α)
    (x : String) (h : x ≠ k) : fupdate f k v x = f x := by
  simp [fupdate, h]

theorem drainLoop_fst (q : List String) : ∀ n : Nat, (drainLoop q n).1 = q := by
  induction q with
  | nil => intro n; rfl
  | cons t rest ih => intro n; simp [drainLoop, ih]

theorem q_for_queues_frame (st : RelayState) (c k : String) (h : k ≠ pyStrip c) :
    ((q_for st c).1).queues k = st.queues k := by
  unfold q_for
  cases hq : st.queues (pyStrip c) <;> simp [hq, fupdate, h]

theorem q_for_queues_key (st : RelayState) (c : String) :
    ((q_for st c).1).queues (pyStrip c) = some ((st.queues (pyStrip c)).getD []) := by
  unfold q_for
  cases hq : st.queues (pyStrip c) <;> simp [hq, fupdate]

theorem drain_fst (st : RelayState) (c : String) :
    (drain_tokens st c).1 = (st.queues (pyStrip c)).getD [] := by
  unfold drain_tokens
  simp [q_for_queues_key, drainLoop_fst]

theorem drain_queues_key (st : RelayState) (c : String) :
    ((drain_tokens st c).2).queues (pyStrip c) = some [] := by
  unfold drain_tokens
  simp [fupdate]

/-- C6: draining a key never pushed to returns the empty list (the
operation is total, hence never an error), implicitly creates an empty
queue entry for the key (stored, as every registry entry, under the
key's stripped form, which is the key itself for whitespace-free keys),
and a second immediate drain also returns the empty list. -/
theorem c6_empty_drain (k : String) :
    (drain_tokens initState k).1 = [] ∧
    ((drain_tokens initState k).2).queues (pyStrip k) = some [] ∧
    (drain_tokens ((drain_tokens initState k).2) k).1 = [] := by
  refine ⟨?_, drain_queues_key initState k, ?_⟩
  · rw [drain_fst]; rfl
  · rw [drain_fst, drain_queues_key]; rfl

/-- C4: the five literal normalizer examples, evaluated against the
runtime vocabulary (the built-in default, since the repository ships no
vocabulary file). -/
theorem c4_normalizer_examples :
    normalize_token VOCAB "Weiß" = some "weiss" ∧
    normalize_token VOCAB "dunkel-grün" = some "dunkelgruen" ∧
    normalize_token VOCAB "xyz123" = none ∧
    normalize_token VOCAB "" = none ∧
    normalize_token VOCAB "ich sehe rot jetzt" = some "rot" := by
  decide

theorem firstVocabWord_eq_find (V : Finset String) (l : List String) :
    firstVocabWord V l = (l.find? (fun w => decide (aliasGetD w ∈ V))).map aliasGetD := by
  induction l with
  | nil => rfl
  | cons w rest ih =>
    by_cases h : aliasGetD w ∈ V
    · simp [firstVocabWord, h, List.find?_cons_of_pos]
    · simp [firstVocabWord, h, List.find?_cons_of_neg, ih]

/-- C3 counterexample: the claim says candidate words are obtained by
splitting on spaces and on internal hyphens; on the input `"rot-blau"`
that algorithm (`normalize_specC3`) yields the vocabulary word `rot`,
but the source removes the hyphen, producing the single non-vocabulary
candidate `rotblau`, and returns no token. -/
theorem c3_counterexample :
    normalize_token VOCAB "rot-blau" = none ∧
    normalize_specC3 VOCAB "rot-blau" = some "rot" := by
  decide

/-- C3 amended: after lowercasing, character-filtering, whitespace
collapsing and the phrase-level alias substitution, `normalize_token`
removes internal hyphens (fusing hyphen-separated fragments into single
words), splits the result on spaces into an ordered candidate list,
scans it left to right applying the word-level alias table to each
candidate before testing vocabulary membership, and returns the first
(alias-mapped) candidate in the vocabulary, or none. -/
theorem c3_first_match (V : Finset String) (s : String) :
    normalize_token V s = normalize_amendedC3 V s := by
  unfold normalize_token normalize_amendedC3
  simp only [firstVocabWord_eq_find]

set_option maxRecDepth 10000 in
/-- C1: evaluation of the code at the failing input.  From the empty
registry, push 64 tokens with code `"a"`, then one more with code
`" a"`: `q_for` strips the code, so both codes feed the queue stored
under `"a"`, but the eviction guard consults `QLEN[" a"]`, which is 0,
so nothing is evicted and the queue under `"a"` grows to 65 elements,
exceeding `MAX_QUEUE_LEN_PER_CODE = 64`. -/
theorem c1_capacity_exceeded :
    (((push_token (pushSeq initState "a" (List.replicate 64 "rot")) " a" "blau").queues
        "a").getD []).length = MAX_QUEUE_LEN_PER_CODE + 1 := by
  decide

set_option maxRecDepth 10000 in
/-- C2 counterexample: pushing 65 tokens (more than the capacity of 64)
with no intervening drain does not return all 65 of them on drain; the
oldest is evicted. -/
theorem c2_counterexample :
    (drain_tokens (pushSeq initState "a" (List.replicate 65 "rot")) "a").1 ≠
      List.replicate 65 "rot" := by
  decide

/-- C5 counterexample: the codes `" a"` and `"a"` are distinct keys as
passed to the relay functions, yet a token pushed with code `" a"`
appears in the drain of code `"a"`, because `q_for` strips codes and
both resolve to the same stored queue. -/
theorem c5_counterexample :
    (" a" : String) ≠ "a" ∧
    (drain_tokens (push_token initState " a" "rot") "a").1 = ["rot"] := by
  decide

/-- C10 counterexample: after a single push with the unstripped code
`" a"` from the empty registry, the queue stored under `"a"` holds one
element while the bookkeeping entry `QLEN["a"]` (created by `q_for`)
still reads 0: the counter does not track the queue's true length. -/
theorem c10_counterexample :
    (push_token initState " a" "rot").queues "a" = some ["rot"] ∧
    (push_token initState " a" "rot").qlen "a" = some 0 := by
  decide

/-- C8 counterexample: a 33-character purely numeric key identifier
exceeds the 32-character bound the claim states for the numeric-style
secondary channel, yet the code (which has a single identifier channel
with a 64-character bound) accepts it: `pull` succeeds. -/
theorem c8_counterexample :
    rejects_specC8 (String.mk (List.replicate 33 '1')) = true ∧
    isOkE (pull initState (String.mk (List.replicate 33 '1'))).1 = true := by
  decide

theorem push_queues_frame (st : RelayState) (c t k : String) (h : k ≠ pyStrip c) :
    (push_token st c t).queues k = st.queues k := by
  unfold push_token appendTok
  have h1 : ((q_for st c).1).queues k = st.queues k := q_for_queues_frame st c k h
  set st1 := (q_for st c).1 with hst1
  by_cases hg : MAX_QUEUE_LEN_PER_CODE ≤ qlenGet st1 c
  · simp only [if_pos hg]
    unfold evictOne
    cases hq : st1.queues (pyStrip c) with
    | none => simp [fupdate, h, h1]
    | some q =>
      cases q with
      | nil => simp [fupdate, h, h1]
      | cons x rest => simp [fupdate, h, h1]
  · simp only [if_neg hg]
    simp [fupdate, h, h1]

theorem pushSeq_queues_frame (st : RelayState) (c : String) (ts : List String)
    (k : String) (h : k ≠ pyStrip c) :
    (pushSeq st c ts).queues k = st.queues k := by
  induction ts generalizing st with
  | nil => rfl
  | cons t rest ih =>
    have : pushSeq st c (t :: rest) = pushSeq (push_token st c t) c rest := rfl
    rw [this, ih (push_token st c t), push_queues_frame st c t k h]
theorem push_token_step (st : RelayState) (c t : String) (q : List String)
    (hq : st.queues (pyStrip c) = some q) (hl : qlenGet st c = q.length)
    (hb : q.length < MAX_QUEUE_LEN_PER_CODE) :
    (push_token st c t).queues (pyStrip c) = some (q ++ [t]) ∧
    qlenGet (push_token st c t) c = q.length + 1 := by
  have hq_for : q_for st c = (st, pyStrip c) := by
    simp [q_for, hq]
  have hl' : (st.qlen c).getD 0 = q.length := hl
  have hguard : ¬ MAX_QUEUE_LEN_PER_CODE ≤ q.length := by omega
  constructor
  · simp [push_token, hq_for, appendTok, fupdate, hq, qlenGet, hl', hguard]
  · simp [push_token, hq_for, appendTok, fupdate, hq, qlenGet, hl', hguard]

theorem pushSeq_grows (ts : List String) : ∀ (st : RelayState) (c : String) (q : List String),
    st.queues (pyStrip c) = some q → qlenGet st c = q.length →
    q.length + ts.length ≤ MAX_QUEUE_LEN_PER_CODE →
    (pushSeq st c ts).queues (pyStrip c) = some (q ++ ts) ∧
    qlenGet (pushSeq st c ts) c = q.length + ts.length := by
  induction ts with
  | nil =>
    intro st c q hq hl _
    simpa [pushSeq] using ⟨hq, hl⟩
  | cons t rest ih =>
    intro st c q hq hl hb
    rw [List.length_cons] at hb
    have hb' : q.length < MAX_QUEUE_LEN_PER_CODE := by omega
    have hstep := push_token_step st c t q hq hl hb'
    have hlen2 : qlenGet (push_token st c t) c = (q ++ [t]).length := by
      rw [hstep.2, List.length_append, List.length_cons, List.length_nil]
    have hb2 : (q ++ [t]).length + rest.length ≤ MAX_QUEUE_LEN_PER_CODE := by
      rw [List.length_append, List.length_cons, List.length_nil]; omega
    have hrec := ih (push_token st c t) c (q ++ [t]) hstep.1 hlen2 hb2
    have hfold : pushSeq st c (t :: rest) = pushSeq (push_token st c t) c rest := rfl
    rw [hfold]
    constructor
    · rw [hrec.1, List.append_assoc, List.singleton_append]
    · rw [hrec.2, List.length_append, List.length_cons, List.length_nil, List.length_cons]
      omega

theorem push_token_create (st : RelayState) (c t : String)
    (hq : st.queues (pyStrip c) = none) (hl : st.qlen c = none) :
    (push_token st c t).queues (pyStrip c) = some [t] ∧
    qlenGet (push_token st c t) c = 1 := by
  have hq_for : q_for st c =
      (⟨fupdate st.queues (pyStrip c) (some []), fupdate st.qlen (pyStrip c) (some 0)⟩,
        pyStrip c) := by
    simp [q_for, hq]
  have hlen :
      qlenGet ⟨fupdate st.queues (pyStrip c) (some []), fupdate st.qlen (pyStrip c) (some 0)⟩ c
        = 0 := by
    simp only [qlenGet, fupdate]
    by_cases h : c = pyStrip c
    · rw [if_pos h]; rfl
    · rw [if_neg h, hl]; rfl
  constructor
  · simp [push_token, hq_for, appendTok, hlen, MAX_QUEUE_LEN_PER_CODE, fupdate]
  · simp [push_token, hq_for, appendTok, hlen, MAX_QUEUE_LEN_PER_CODE]
    simp [qlenGet, fupdate]

/-- C2 amended: for every key and every token sequence of length at most
the capacity `MAX_QUEUE_LEN_PER_CODE = 64`, pushing the tokens in order
from the empty registry with no interleaving drains and then draining
the same key returns exactly that sequence, in order (for longer
sequences eviction discards the oldest tokens, see the
counterexample). -/
theorem c2_fifo (c : String) (ts : List String) (h : ts.length ≤ MAX_QUEUE_LEN_PER_CODE) :
    (drain_tokens (pushSeq initState c ts) c).1 = ts := by
  cases ts with
  | nil =>
    rw [drain_fst]
    rfl
  | cons t rest =>
    rw [List.length_cons] at h
    have h1 := push_token_create initState c t rfl rfl
    have h2 := pushSeq_grows rest (push_token initState c t) c [t] h1.1
      (by rw [h1.2]; rfl) (by simp only [List.length_cons, List.length_nil]; omega)
    have hfold : pushSeq initState c (t :: rest) = pushSeq (push_token initState c t) c rest :=
      rfl
    rw [hfold, drain_fst, h2.1, List.singleton_append]
    rfl

/-- C2 witness at a concrete input. -/
theorem c2_fifo_witness :
    (["rot", "blau", "gelb"] : List String).length ≤ MAX_QUEUE_LEN_PER_CODE ∧
    (drain_tokens (pushSeq initState "session1" ["rot", "blau", "gelb"]) "session1").1 =
      ["rot", "blau", "gelb"] :=
  ⟨by decide, c2_fifo "session1" ["rot", "blau", "gelb"] (by decide)⟩

/-- C5 amended: for keys whose stripped forms differ (distinct keys up to
the whitespace stripping `q_for` applies; for literally distinct keys
the property fails, see the counterexample), any sequence of pushes to
the first key leaves the stored queue of the second key unchanged and
does not change what a drain of the second key returns. -/
theorem c5_isolation (st : RelayState) (k1 k2 : String) (ts : List String)
    (h : pyStrip k1 ≠ pyStrip k2) :
    (pushSeq st k1 ts).queues (pyStrip k2) = st.queues (pyStrip k2) ∧
    (drain_tokens (pushSeq st k1 ts) k2).1 = (drain_tokens st k2).1 := by
  have hframe := pushSeq_queues_frame st k1 ts (pyStrip k2) (fun e => h e.symm)
  exact ⟨hframe, by rw [drain_fst, drain_fst, hframe]⟩

/-- C5 witness at a concrete input. -/
theorem c5_isolation_witness :
    pyStrip "a" ≠ pyStrip "b" ∧
    (pushSeq initState "a" ["rot"]).queues (pyStrip "b") = initState.queues (pyStrip "b") ∧
    (drain_tokens (pushSeq initState "a" ["rot"]) "b").1 = (drain_tokens initState "b").1 :=
  ⟨by decide,
   (c5_isolation initState "a" "b" ["rot"] (by decide)).1,
   (c5_isolation initState "a" "b" ["rot"] (by decide)).2⟩

theorem firstVocabWord_mem (V : Finset String) (l : List String) (t : String)
    (h : firstVocabWord V l = some t) : t ∈ V := by
  induction l with
  | nil => exact absurd h (by simp [firstVocabWord])
  | cons w rest ih =>
    by_cases hw : aliasGetD w ∈ V
    · have : some (aliasGetD w) = some t := by simpa [firstVocabWord, hw] using h
      rw [← Option.some_inj.mp this]
      exact hw
    · exact ih (by simpa [firstVocabWord, hw] using h)

theorem normalize_token_mem (V : Finset String) (s t : String)
    (h : normalize_token V s = some t) : t ∈ V := by
  unfold normalize_token at h
  by_cases h1 : s = ""
  · simp [h1] at h
  · rw [if_neg h1] at h
    by_cases h2 :
        String.intercalate " " (pySplitWS (charFilter (pyLowerStr (pyStrip s)))) = ""
    · simp only [h2, if_pos rfl] at h
      exact absurd h (by simp)
    · rw [if_neg h2] at h
      exact firstVocabWord_mem V _ t h

theorem evictOne_sub (st : RelayState) (c key k : String) (q' : List String)
    (hq : (evictOne st c key).queues k = some q') (x : String) (hx : x ∈ q') :
    ∃ q0, st.queues k = some q0 ∧ x ∈ q0 := by
  unfold evictOne at hq
  cases hv : st.queues key with
  | none =>
    rw [hv] at hq
    exact ⟨q', hq, hx⟩
  | some q =>
    cases q with
    | nil =>
      rw [hv] at hq
      exact ⟨q', hq, hx⟩
    | cons y rest =>
      rw [hv] at hq
      dsimp only [] at hq
      by_cases hk : k = key
      · subst hk
        rw [fupdate_self] at hq
        have he : rest = q' := Option.some_inj.mp hq
        refine ⟨y :: rest, hv, ?_⟩
        rw [he]
        exact List.mem_cons_of_mem y hx
      · rw [fupdate_other _ _ _ _ hk] at hq
        exact ⟨q', hq, hx⟩

theorem q_for_sub (st : RelayState) (c k : String) (q' : List String)
    (hq : ((q_for st c).1).queues k = some q') (x : String) (hx : x ∈ q') :
    ∃ q0, st.queues k = some q0 ∧ x ∈ q0 := by
  by_cases hk : k = pyStrip c
  · subst hk
    rw [q_for_queues_key] at hq
    cases hv : st.queues (pyStrip c) with
    | none =>
      rw [hv] at hq
      simp only [Option.getD_none] at hq
      have he : ([] : List String) = q' := Option.some_inj.mp hq
      rw [← he] at hx
      exact absurd hx (by simp)
    | some q0 =>
      rw [hv] at hq
      simp only [Option.getD_some] at hq
      have he : q0 = q' := Option.some_inj.mp hq
      refine ⟨q0, rfl, ?_⟩
      rw [he]
      exact hx
  · rw [q_for_queues_frame st c k hk] at hq
    exact ⟨q', hq, hx⟩

theorem push_token_mem (st : RelayState) (c t k : String) (q' : List String)
    (hq : (push_token st c t).queues k = some q') (x : String) (hx : x ∈ q') :
    x = t ∨ ∃ q0, st.queues k = some q0 ∧ x ∈ q0 := by
  simp only [push_token, appendTok] at hq
  set st1 := (q_for st c).1 with hst1
  set st2 := if MAX_QUEUE_LEN_PER_CODE ≤ qlenGet st1 c then evictOne st1 c (pyStrip c) else st1
    with hst2
  by_cases hk : k = pyStrip c
  · subst hk
    rw [fupdate_self] at hq
    have hx' : x ∈ (st2.queues (pyStrip c)).getD [] ++ [t] := by
      have he := Option.some_inj.mp hq
      rw [he]
      exact hx
    rcases List.mem_append.mp hx' with hold | hnew
    · right
      cases hv : st2.queues (pyStrip c) with
      | none => rw [hv] at hold; exact absurd hold (by simp)
      | some qmid =>
        rw [hv] at hold
        simp only [Option.getD_some] at hold
        have hmid : ∃ q0, st1.queues (pyStrip c) = some q0 ∧ x ∈ q0 := by
          rw [hst2] at hv
          by_cases hg : MAX_QUEUE_LEN_PER_CODE ≤ qlenGet st1 c
          · rw [if_pos hg] at hv
            exact evictOne_sub st1 c (pyStrip c) (pyStrip c) qmid hv x hold
          · rw [if_neg hg] at hv
            exact ⟨qmid, hv, hold⟩
        obtain ⟨q0, hq0, hxq0⟩ := hmid
        exact q_for_sub st c (pyStrip c) q0 hq0 x hxq0
    · left
      simpa using hnew
  · rw [fupdate_other _ _ _ _ hk] at hq
    right
    have hmid1 : st1.queues k = some q' := by
      rw [hst2] at hq
      by_cases hg : MAX_QUEUE_LEN_PER_CODE ≤ qlenGet st1 c
      · rw [if_pos hg] at hq
        unfold evictOne at hq
        cases hv : st1.queues (pyStrip c) with
        | none => rw [hv] at hq; exact hq
        | some qv =>
          cases qv with
          | nil => rw [hv] at hq; exact hq
          | cons y rest =>
            rw [hv] at hq
            dsimp only [] at hq
            rw [fupdate_other _ _ _ _ hk] at hq
            exact hq
      · rw [if_neg hg] at hq
        exact hq
    rw [q_for_queues_frame st c k hk] at hmid1
    exact ⟨q', hmid1, hx⟩

/-- C7: the normalizer returns no token or a vocabulary member, and the
ingest path only enqueues the normalizer's output, so any token found in
any queue after an ingest request is a vocabulary member unless it was
already in that queue beforehand; hence, starting from the empty
registry, every value ever placed into a relay queue is a canonical
vocabulary token. -/
theorem c7_canonical_tokens :
    (∀ s t : String, normalize_token VOCAB s = some t → t ∈ VOCAB) ∧
    (∀ (st : RelayState) (code hyp k : String) (q : List String) (t : String),
      ((recognize st code hyp).2).queues k = some q → t ∈ q →
      t ∈ VOCAB ∨ ∃ q0, st.queues k = some q0 ∧ t ∈ q0) := by
  refine ⟨fun s t h => normalize_token_mem VOCAB s t h, ?_⟩
  intro st code hyp k q t hq ht
  unfold recognize at hq
  by_cases hval : code = "" ∨ 64 < code.length
  · rw [if_pos hval] at hq
    exact Or.inr ⟨q, hq, ht⟩
  · rw [if_neg hval] at hq
    cases hn : normalize_token VOCAB hyp with
    | none =>
      rw [hn] at hq
      exact Or.inr ⟨q, hq, ht⟩
    | some tok =>
      rw [hn] at hq
      dsimp only [] at hq
      rcases push_token_mem st code tok k q hq t ht with he | hold
      · exact Or.inl (he ▸ normalize_token_mem VOCAB hyp tok hn)
      · exact Or.inr hold

/-- C7 witness at a concrete input: ingesting the hypothesis `"rot"`
under code `"s"` into the empty registry enqueues the canonical token
`"rot"`, which is a vocabulary member. -/
theorem c7_canonical_tokens_witness :
    (("rot" : String) ∈ VOCAB) ∧
    (("rot" : String) ∈ VOCAB ∨ ∃ q0, initState.queues "s" = some q0 ∧ "rot" ∈ q0) :=
  ⟨c7_canonical_tokens.1 "rot" "rot" (by decide),
   c7_canonical_tokens.2 initState "s" "rot" "s" ["rot"] "rot" (by decide) (by decide)⟩

/-- C8 amended: the code has a single key-identifier channel (the form
field or query parameter `code`); `recognize` and `pull` reject a
request exactly when `code` is empty or longer than 64 characters, and
on such a rejection no relay state is mutated.  There is no secondary
32-character numeric-style channel (see the counterexample). -/
theorem c8_validation (st : RelayState) (code hyp : String) :
    (isOkE (pull st code).1 = false ↔ (code = "" ∨ 64 < code.length)) ∧
    (isOkE (recognize st code hyp).1 = false ↔ (code = "" ∨ 64 < code.length)) ∧
    ((code = "" ∨ 64 < code.length) →
      (pull st code).2 = st ∧ (recognize st code hyp).2 = st) := by
  by_cases h : code = "" ∨ 64 < code.length
  · refine ⟨?_, ?_, fun _ => ⟨?_, ?_⟩⟩ <;> simp [pull, recognize, h, isOkE]
  · refine ⟨?_, ?_, fun hc => absurd hc h⟩
    · simp [pull, h, isOkE]
    · simp only [recognize, if_neg h]
      cases hn : normalize_token VOCAB hyp <;> simp [isOkE, h]

/-- C8 witness at a concrete input: the empty code is rejected by both
handlers and leaves the state untouched. -/
theorem c8_validation_witness :
    isOkE (pull initState "").1 = false ∧
    (pull initState "").2 = initState ∧
    (recognize initState "" "rot").2 = initState :=
  ⟨(c8_validation initState "" "rot").1.mpr (Or.inl rfl),
   ((c8_validation initState "" "rot").2.2 (Or.inl rfl)).1,
   ((c8_validation initState "" "rot").2.2 (Or.inl rfl)).2⟩

/-- C9 counterexample: `load_vocab` only catches `FileNotFoundError`; a
source that exists but cannot be read (for instance a permission or
decoding error) makes the function raise instead of returning the
default vocabulary, so "never fails" does not hold. -/
theorem c9_counterexample : load_vocab VocabSource.readError = Except.error () := rfl

/-- C9 amended: `load_vocab` trims and lowercases each newline-delimited
token, discards blank lines and deduplicates with set semantics
(`vocabItems`); if the file is absent (`FileNotFoundError`) or yields
zero usable tokens it returns the built-in default vocabulary of exactly
26 German color names; whenever it returns, the result is nonempty; but
a read failure other than a missing file propagates as an exception
(see the counterexample). -/
theorem c9_load_vocab (lines : List String) (h : vocabItems lines ≠ ∅) :
    load_vocab VocabSource.missing = Except.ok DEFAULT_VOCAB ∧
    load_vocab (VocabSource.content lines) = Except.ok (vocabItems lines) ∧
    (vocabItems lines).Nonempty ∧
    DEFAULT_VOCAB.card = 26 ∧
    (∀ ls : List String, vocabItems ls = ∅ →
      load_vocab (VocabSource.content ls) = Except.ok DEFAULT_VOCAB) := by
  refine ⟨rfl, ?_, Finset.nonempty_iff_ne_empty.mpr h, by decide, ?_⟩
  · simp [load_vocab, h]
  · intro ls hls
    simp [load_vocab, hls]

/-- C9 witness at a concrete input: a one-line file whose line carries
surrounding whitespace and mixed case. -/
theorem c9_load_vocab_witness :
    vocabItems [" Rot"] ≠ ∅ ∧
    load_vocab (VocabSource.content [" Rot"]) = Except.ok (vocabItems [" Rot"]) ∧
    (vocabItems [" Rot"]).Nonempty :=
  ⟨by decide,
   (c9_load_vocab [" Rot"] (by decide)).2.1,
   (c9_load_vocab [" Rot"] (by decide)).2.2.1⟩

theorem drainLoop_snd (q : List String) : ∀ n : Nat, (drainLoop q n).2 = n - q.length := by
  induction q with
  | nil => intro n; simp [drainLoop]
  | cons t rest ih =>
    intro n
    simp only [drainLoop, ih, List.length_cons]
    omega


theorem agrees_update (st : RelayState) (h : agrees st) (c : String) (q' : List String) :
    agrees ⟨fupdate st.queues c (some q'), fupdate st.qlen c (some q'.length)⟩ := by
  constructor
  · intro k qk hk
    dsimp only [] at hk ⊢
    by_cases e : k = c
    · subst e
      rw [fupdate_self] at hk
      rw [fupdate_self, Option.some_inj.mp hk]
    · rw [fupdate_other _ _ _ _ e] at hk
      rw [fupdate_other _ _ _ _ e]
      exact h.1 k qk hk
  · intro k hk
    dsimp only [] at hk ⊢
    by_cases e : k = c
    · subst e
      rw [fupdate_self] at hk
      exact absurd hk (by simp)
    · rw [fupdate_other _ _ _ _ e] at hk
      rw [fupdate_other _ _ _ _ e]
      exact h.2 k hk

theorem q_for_agrees (st : RelayState) (c : String) (h : agrees st) :
    agrees (q_for st c).1 := by
  cases hv : st.queues (pyStrip c) with
  | some q =>
    have he : (q_for st c).1 = st := by simp [q_for, hv]
    rw [he]
    exact h
  | none =>
    have he : (q_for st c).1 =
        ⟨fupdate st.queues (pyStrip c) (some []), fupdate st.qlen (pyStrip c) (some 0)⟩ := by
      simp [q_for, hv]
    rw [he]
    exact agrees_update st h (pyStrip c) []

theorem appendTok_agrees (st : RelayState) (c t : String) (q : List String)
    (h : agrees st) (hq : st.queues c = some q) :
    agrees (appendTok st c c t) := by
  have hl : st.qlen c = some q.length := h.1 c q hq
  have hgl : qlenGet st c = q.length := by
    simp only [qlenGet, hl, Option.getD_some]
  have hlen : q.length + 1 = (q ++ [t]).length := by simp
  have he : appendTok st c c t =
      ⟨fupdate st.queues c (some (q ++ [t])), fupdate st.qlen c (some ((q ++ [t]).length))⟩ := by
    simp only [appendTok, hq, Option.getD_some, hgl, hlen]
  rw [he]
  exact agrees_update st h c (q ++ [t])

theorem evictOne_agrees (st : RelayState) (c y : String) (rest : List String)
    (h : agrees st) (hq : st.queues c = some (y :: rest)) :
    agrees (evictOne st c c) := by
  have hl : st.qlen c = some (y :: rest).length := h.1 c _ hq
  have hgl : qlenGet st c = rest.length + 1 := by
    simp only [qlenGet, hl, Option.getD_some, List.length_cons]
  have he : evictOne st c c =
      ⟨fupdate st.queues c (some rest), fupdate st.qlen c (some rest.length)⟩ := by
    unfold evictOne
    rw [hq]
    dsimp only []
    rw [hgl]
    simp only [Nat.add_sub_cancel]
  rw [he]
  exact agrees_update st h c rest

theorem push_token_agrees (st : RelayState) (c t : String) (h : agrees st)
    (hc : pyStrip c = c) : agrees (push_token st c t) := by
  have h1 : agrees (q_for st c).1 := q_for_agrees st c h
  obtain ⟨q1, hq1⟩ : ∃ q, ((q_for st c).1).queues c = some q := by
    have hqk := q_for_queues_key st c
    rw [hc] at hqk
    exact ⟨_, hqk⟩
  have hunfold : push_token st c t =
      appendTok
        (if MAX_QUEUE_LEN_PER_CODE ≤ qlenGet (q_for st c).1 c
          then evictOne (q_for st c).1 c c else (q_for st c).1) c c t := by
    simp only [push_token, hc]
  rw [hunfold]
  by_cases hg : MAX_QUEUE_LEN_PER_CODE ≤ qlenGet (q_for st c).1 c
  · rw [if_pos hg]
    have hgl : qlenGet (q_for st c).1 c = q1.length := by
      simp only [qlenGet, h1.1 c q1 hq1, Option.getD_some]
    have hne : q1 ≠ [] := by
      intro he0
      rw [hgl, he0] at hg
      simp [MAX_QUEUE_LEN_PER_CODE] at hg
    obtain ⟨y, rest, hcons⟩ := List.exists_cons_of_ne_nil hne
    rw [hcons] at hq1
    have h2 : agrees (evictOne (q_for st c).1 c c) :=
      evictOne_agrees (q_for st c).1 c y rest h1 hq1
    have hq2 : (evictOne (q_for st c).1 c c).queues c = some rest := by
      unfold evictOne
      rw [hq1]
      dsimp only []
      rw [fupdate_self]
    exact appendTok_agrees _ c t rest h2 hq2
  · rw [if_neg hg]
    exact appendTok_agrees _ c t q1 h1 hq1

theorem drain_tokens_agrees (st : RelayState) (c : String) (h : agrees st)
    (hc : pyStrip c = c) : agrees (drain_tokens st c).2 := by
  have h1 : agrees (q_for st c).1 := q_for_agrees st c h
  obtain ⟨q1, hq1⟩ : ∃ q, ((q_for st c).1).queues c = some q := by
    have hqk := q_for_queues_key st c
    rw [hc] at hqk
    exact ⟨_, hqk⟩
  have hl1 : ((q_for st c).1).qlen c = some q1.length := h1.1 c q1 hq1
  have hgl : qlenGet (q_for st c).1 c = q1.length := by
    simp only [qlenGet, hl1, Option.getD_some]
  by_cases hq0 : q1 = []
  · have he : (drain_tokens st c).2 =
        ⟨fupdate ((q_for st c).1).queues c (some []), ((q_for st c).1).qlen⟩ := by
      simp [drain_tokens, hc, hq1, hq0]
    rw [he]
    constructor
    · intro k qk hk
      dsimp only [] at hk ⊢
      by_cases e : k = c
      · subst e
        rw [fupdate_self] at hk
        rw [← Option.some_inj.mp hk, hl1, hq0]
      · rw [fupdate_other _ _ _ _ e] at hk
        exact h1.1 k qk hk
    · intro k hk
      dsimp only [] at hk ⊢
      by_cases e : k = c
      · subst e
        rw [fupdate_self] at hk
        exact absurd hk (by simp)
      · rw [fupdate_other _ _ _ _ e] at hk
        exact h1.2 k hk
  · have he : (drain_tokens st c).2 =
        ⟨fupdate ((q_for st c).1).queues c (some []),
         fupdate ((q_for st c).1).qlen c (some ([] : List String).length)⟩ := by
      simp only [drain_tokens, hc, hq1, Option.getD_some, if_neg hq0, drainLoop_snd, hgl,
        Nat.sub_self, List.length_nil]
    rw [he]
    exact agrees_update (q_for st c).1 h1 c []

theorem runOp_agrees (st : RelayState) (op : Op) (h : agrees st)
    (hc : pyStrip op.code = op.code) : agrees (runOp st op) := by
  cases op with
  | push c t => exact push_token_agrees st c t h hc
  | drain c => exact drain_tokens_agrees st c h hc

theorem runOps_agrees (ops : List Op) : ∀ st : RelayState, agrees st →
    (∀ op ∈ ops, pyStrip op.code = op.code) → agrees (runOps st ops) := by
  induction ops with
  | nil => intro st h _; exact h
  | cons op rest ih =>
    intro st h hall
    have hfold : runOps st (op :: rest) = runOps (runOp st op) rest := rfl
    rw [hfold]
    exact ih (runOp st op) (runOp_agrees st op h (hall op (by simp)))
      (fun o ho => hall o (by simp [ho]))

theorem agrees_initState : agrees initState :=
  ⟨fun _ _ hk => absurd hk (by simp [initState]), fun _ _ => rfl⟩

/-- C10 amended: for every sequence of relay operations whose code
arguments are whitespace-free (equal to their own stripped form, so that
the `QLEN` bookkeeping keys and the stripped `QUEUES` keys coincide),
starting from the empty registry, `QLEN` agrees with the actual queue
lengths after every operation, and whenever the eviction guard of
`push_token` fires (`QLEN.get(code, 0) >= MAX_QUEUE_LEN_PER_CODE`) the
queue it pops from is nonempty, so the `except` handler around
`q.get_nowait()` never runs.  For codes carrying whitespace the
agreement fails (see the counterexample). -/
theorem c10_qlen_agreement (ops : List Op) (h : ∀ op ∈ ops, pyStrip op.code = op.code) :
    agrees (runOps initState ops) ∧
    (∀ c : String, MAX_QUEUE_LEN_PER_CODE ≤ qlenGet (runOps initState ops) c →
      ((runOps initState ops).queues c).getD [] ≠ []) := by
  have hag := runOps_agrees ops initState agrees_initState h
  refine ⟨hag, ?_⟩
  intro c hge
  cases hql : (runOps initState ops).qlen c with
  | none =>
    simp only [qlenGet, hql, Option.getD_none] at hge
    exact absurd hge (by simp [MAX_QUEUE_LEN_PER_CODE])
  | some n =>
    simp only [qlenGet, hql, Option.getD_some] at hge
    cases hqs : (runOps initState ops).queues c with
    | none =>
      rw [hag.2 c hqs] at hql
      exact absurd hql (by simp)
    | some q =>
      have hlen := hag.1 c q hqs
      rw [hql] at hlen
      have hn : n = q.length := Option.some_inj.mp hlen
      simp only [Option.getD_some]
      intro habs
      rw [habs] at hn
      rw [hn] at hge
      simp [MAX_QUEUE_LEN_PER_CODE] at hge

/-- C10 witness at a concrete whitespace-free operation sequence. -/
theorem c10_qlen_agreement_witness :
    agrees (runOps initState [Op.push "a" "rot", Op.drain "a", Op.push "a" "blau"]) ∧
    (∀ c : String, MAX_QUEUE_LEN_PER_CODE ≤
        qlenGet (runOps initState [Op.push "a" "rot", Op.drain "a", Op.push "a" "blau"]) c →
      ((runOps initState [Op.push "a" "rot", Op.drain "a", Op.push "a" "blau"]).queues c).getD []
        ≠ []) :=
  c10_qlen_agreement [Op.push "a" "rot", Op.drain "a", Op.push "a" "blau"] (by decide)
